import Mathlib

/-!
A model of the circular-coil magnetic-field calculators: the AGM
computation of the complete elliptic integrals K and E, the Biot-Savart
loop field (single-coil file `single_coil.js` and the Helmholtz file's
inner `loopField`), the Helmholtz superposition, the finite-difference
gradient estimator, and the input-validation front ends of the two
button handlers.  Real-number arithmetic stands in for the source's
double-precision arithmetic; the source's unbounded AGM `while` loop is
given an explicit fuel parameter, and thrown exceptions are modelled
with `Except`.
-/

namespace CoilModel

noncomputable section

/-- Vacuum permeability `mu0 = 4 * Math.PI * 1e-7`, as declared at the
top of both source files. -/
def mu0 : ℝ := 4 * Real.pi * 1e-7

/-- Convergence tolerance `tol = 1e-14` of the AGM loop. -/
def tol : ℝ := 1e-14

/-- Errors a computation can raise: the elliptic-integral domain check
(the thrown range error of `ellipticKE`), or exhaustion of the loop
fuel (the source's loop is unbounded; fuel makes the model total). -/
inductive Err where
  | domainError
  | fuelOut
  deriving DecidableEq

/-- The mutable locals of the AGM loop in `ellipticKE`:
`a`, `b`, `c`, `sum`, `pow`. -/
structure AgmState where
  a : ℝ
  b : ℝ
  c : ℝ
  sum : ℝ
  pow : ℝ

/-- One pass of the AGM loop body:
`an = (a+b)/2; bn = sqrt(a*b); c = (a-b)/2; sum += pow*c*c; pow *= 2;
a = an; b = bn`. -/
def agmStep (s : AgmState) : AgmState :=
  { a := (s.a + s.b) / 2
    b := Real.sqrt (s.a * s.b)
    c := (s.a - s.b) / 2
    sum := s.sum + s.pow * ((s.a - s.b) / 2) * ((s.a - s.b) / 2)
    pow := s.pow * 2 }

/-- The AGM `while (Math.abs(c) > tol * a)` loop, run with explicit
fuel.  `none` means the fuel ran out before the loop condition became
false. -/
def agmGo : ℕ → AgmState → Option AgmState
  | 0, s => if tol * s.a < |s.c| then none else some s
  | fuel + 1, s => if tol * s.a < |s.c| then agmGo fuel (agmStep s) else some s

/-- The loop state just before the first iteration of `ellipticKE`:
`a = 1; b = sqrt(1-m); c = a - b; sum = 0; pow = 1`. -/
def agmInit (m : ℝ) : AgmState :=
  { a := 1
    b := Real.sqrt (1 - m)
    c := 1 - Real.sqrt (1 - m)
    sum := 0
    pow := 1 }

/-- `ellipticKE(m)`: complete elliptic integrals of the first and
second kind via the AGM iteration, returning the pair `(K, E)`.  The
domain guard `m < 0 || m >= 1` throws; afterwards
`K = PI / (2*a)` and `E = K * (1 - sum)`. -/
def ellipticKE (fuel : ℕ) (m : ℝ) : Except Err (ℝ × ℝ) :=
  if m < 0 ∨ 1 ≤ m then Except.error Err.domainError
  else
    match agmGo fuel (agmInit m) with
    | none => Except.error Err.fuelOut
    | some s => Except.ok (Real.pi / (2 * s.a), Real.pi / (2 * s.a) * (1 - s.sum))

/-- `loopFieldMeters(x, y, z, R, I, N)` from `single_coil.js`: field of
a circular loop centred at the origin with axis along x, all lengths in
meters.  The on-axis branch (`rho === 0`) returns the closed axial
form; the off-axis branch clamps the elliptic parameter to
`[0, 1 - 1e-14]` before calling `ellipticKE`. -/
def loopFieldMeters (fuel : ℕ) (x y z R I N : ℝ) : Except Err (ℝ × ℝ × ℝ) :=
  let rho := Real.sqrt (y ^ 2 + z ^ 2)
  let x2 := x * x
  if rho = 0 then
    Except.ok (mu0 * I * N * R * R / (2 * (R * R + x2) ^ (1.5 : ℝ)), 0, 0)
  else
    let denom2 := (R + rho) ^ 2 + x2
    let kSqRaw := 4 * R * rho / denom2
    let kSq := min (1 - 1e-14) (max 0 kSqRaw)
    match ellipticKE fuel kSq with
    | Except.error e => Except.error e
    | Except.ok (K, E) =>
      let denom := Real.sqrt denom2
      let factor := mu0 * I * N / (2 * Real.pi * denom)
      let rho2 := rho * rho
      let aMinusRho2 := (R - rho) ^ 2
      let bRho := factor * (x / rho) *
        (-K + ((R * R + rho2 + x2) / (aMinusRho2 + x2)) * E)
      let bX := factor *
        (K + ((R * R - rho2 - x2) / (aMinusRho2 + x2)) * E)
      Except.ok (bX, bRho * (y / rho), bRho * (z / rho))

/-- The inner `loopField(xp, yp, zp, a, x0)` of the Helmholtz file
(`I` and `N` are captured from the enclosing scope there and passed
explicitly here).  `zax = xp - x0` is the axial displacement from the
loop's own centre; note that this variant calls `ellipticKE` on the raw
`kSq` with no clamping. -/
def helmLoopField (fuel : ℕ) (I N xp yp zp a x0 : ℝ) : Except Err (ℝ × ℝ × ℝ) :=
  let rho := Real.sqrt (yp ^ 2 + zp ^ 2)
  let zax := xp - x0
  if rho = 0 then
    Except.ok (mu0 * I * N * a * a / (2 * (a * a + zax * zax) ^ (1.5 : ℝ)), 0, 0)
  else
    let denom2 := (a + rho) ^ 2 + zax * zax
    let kSq := 4 * a * rho / denom2
    match ellipticKE fuel kSq with
    | Except.error e => Except.error e
    | Except.ok (K, E) =>
      let denom := Real.sqrt denom2
      let factor := mu0 * I * N / (2 * Real.pi * denom)
      let rho2 := rho * rho
      let z2 := zax * zax
      let aMinusRho2 := (a - rho) ^ 2
      let bRho := factor * (zax / rho) *
        (-K + ((a * a + rho2 + z2) / (aMinusRho2 + z2)) * E)
      let bX := factor *
        (K + ((a * a - rho2 - z2) / (aMinusRho2 + z2)) * E)
      Except.ok (bX, bRho * (yp / rho), bRho * (zp / rho))

/-- `Array.prototype.map` with exception propagation: elements are
evaluated left to right and the first thrown error aborts the map. -/
def mapExcept {α β : Type} (l : List α) (f : α → Except Err β) : Except Err (List β) :=
  match l with
  | [] => Except.ok []
  | c :: cs => do
    let v ← f c
    let vs ← mapExcept cs f
    pure (v :: vs)

/-- The accumulator step of the source's `reduce`:
componentwise vector addition. -/
def addV (acc cur : ℝ × ℝ × ℝ) : ℝ × ℝ × ℝ :=
  (acc.1 + cur.1, acc.2.1 + cur.2.1, acc.2.2 + cur.2.2)

/-- `helmholtzField(x_cm, y_cm, z_cm, R_cm, V, Omega, N)`: converts cm
to meters, derives `I = V / Omega`, and sums the two loop fields at
centres `-R/2` and `R/2`. -/
def helmholtzField (fuel : ℕ) (x_cm y_cm z_cm R_cm V Om N : ℝ) : Except Err (ℝ × ℝ × ℝ) := do
  let x := x_cm * 1e-2
  let y := y_cm * 1e-2
  let z := z_cm * 1e-2
  let R := R_cm * 1e-2
  let I := V / Om
  let fields ← mapExcept [-(R / 2), R / 2] (fun c => helmLoopField fuel I N x y z R c)
  pure (fields.foldl addV (0, 0, 0))

/-- The record `{ B, Bmag, grad }` returned by `coilFieldWithGrad`. -/
structure GradResult where
  B : ℝ × ℝ × ℝ
  Bmag : ℝ
  grad : ℝ × ℝ × ℝ

/-- `Math.hypot` of the three components of a field vector. -/
def magV (v : ℝ × ℝ × ℝ) : ℝ :=
  Real.sqrt (v.1 ^ 2 + v.2.1 ^ 2 + v.2.2 ^ 2)

/-- The `magAt` helper of `coilFieldWithGrad`: the magnitude of the
loop field at a (shifted) point. -/
def loopMag (fuel : ℕ) (x y z R I N : ℝ) : Except Err ℝ :=
  (loopFieldMeters fuel x y z R I N).map magV

/-- `coilFieldWithGrad(x_cm, y_cm, z_cm, R_cm, I, N)` from
`single_coil.js`: converts cm to meters, evaluates the base field and
its magnitude, and estimates `grad |B|` by central differences with
step `h = max(1e-5, R * 1e-4)`, evaluating the loop field at the six
shifted points in source order. -/
def coilFieldWithGrad (fuel : ℕ) (x_cm y_cm z_cm R_cm I N : ℝ) : Except Err GradResult := do
  let x := x_cm * 1e-2
  let y := y_cm * 1e-2
  let z := z_cm * 1e-2
  let R := R_cm * 1e-2
  let baseB ← loopFieldMeters fuel x y z R I N
  let h := max 1e-5 (R * 1e-4)
  let mxp ← loopMag fuel (x + h) y z R I N
  let mxm ← loopMag fuel (x - h) y z R I N
  let myp ← loopMag fuel x (y + h) z R I N
  let mym ← loopMag fuel x (y - h) z R I N
  let mzp ← loopMag fuel x y (z + h) R I N
  let mzm ← loopMag fuel x y (z - h) R I N
  pure { B := baseB
         Bmag := magV baseB
         grad := ((mxp - mxm) / (2 * h), (myp - mym) / (2 * h), (mzp - mzm) / (2 * h)) }

/-- `loopMag` instrumented with a running count of loop-field
evaluations: the wrapped call adds one to the count it is handed. -/
def loopMagCounted (fuel : ℕ) (x y z R I N : ℝ) (calls : ℕ) : Except Err (ℝ × ℕ) :=
  (loopFieldMeters fuel x y z R I N).map (fun v => (magV v, calls + 1))

/-- `coilFieldWithGrad` instrumented with a count of how many times the
loop field is evaluated: one base evaluation plus one per `magAt`
call, threaded through in source order. -/
def coilFieldWithGradCounted (fuel : ℕ) (x_cm y_cm z_cm R_cm I N : ℝ) :
    Except Err (GradResult × ℕ) := do
  let x := x_cm * 1e-2
  let y := y_cm * 1e-2
  let z := z_cm * 1e-2
  let R := R_cm * 1e-2
  let base ← (loopFieldMeters fuel x y z R I N).map (fun v => (v, 1))
  let h := max 1e-5 (R * 1e-4)
  let mxp ← loopMagCounted fuel (x + h) y z R I N base.2
  let mxm ← loopMagCounted fuel (x - h) y z R I N mxp.2
  let myp ← loopMagCounted fuel x (y + h) z R I N mxm.2
  let mym ← loopMagCounted fuel x (y - h) z R I N myp.2
  let mzp ← loopMagCounted fuel x y (z + h) R I N mym.2
  let mzm ← loopMagCounted fuel x y (z - h) R I N mzp.2
  pure ({ B := base.1
          Bmag := magV base.1
          grad := ((mxp.1 - mxm.1) / (2 * h), (myp.1 - mym.1) / (2 * h),
                   (mzp.1 - mzm.1) / (2 * h)) }, mzm.2)

/-- The gradient exactly as the specification words it, independent of
`coilFieldWithGrad`: per axis the centred difference
`(mag(point + h*e_k) - mag(point - h*e_k)) / (2h)` of the loop-field
magnitude, with step `h = max(1e-5, R * 1e-4)` in meters. -/
def centralDiffGrad (fuel : ℕ) (x_cm y_cm z_cm R_cm I N : ℝ) : Except Err (ℝ × ℝ × ℝ) := do
  let x := x_cm * 1e-2
  let y := y_cm * 1e-2
  let z := z_cm * 1e-2
  let R := R_cm * 1e-2
  let h := max 1e-5 (R * 1e-4)
  let mxp ← loopMag fuel (x + h) y z R I N
  let mxm ← loopMag fuel (x - h) y z R I N
  let myp ← loopMag fuel x (y + h) z R I N
  let mym ← loopMag fuel x (y - h) z R I N
  let mzp ← loopMag fuel x y (z + h) R I N
  let mzm ← loopMag fuel x y (z - h) R I N
  pure ((mxp - mxm) / (2 * h), (myp - mym) / (2 * h), (mzp - mzm) / (2 * h))

/-- The value of the on-axis branch of `loopFieldMeters` (loop centred
at the origin, so `zax = x`). -/
def onAxisField (x R I N : ℝ) : ℝ × ℝ × ℝ :=
  (mu0 * I * N * R * R / (2 * (R * R + x * x) ^ (1.5 : ℝ)), 0, 0)

/-- The value of the on-axis branch of the Helmholtz file's inner
`loopField`, as a function of the axial displacement `zax`. -/
def helmOnAxis (I N a zax : ℝ) : ℝ × ℝ × ℝ :=
  (mu0 * I * N * a * a / (2 * (a * a + zax * zax) ^ (1.5 : ℝ)), 0, 0)

/-- The value of the off-axis branch of `loopFieldMeters` in the case
where the clamped elliptic parameter is `0`, so that
`K = E = PI / 2`. -/
def offAxisK0 (x y z R I N : ℝ) : ℝ × ℝ × ℝ :=
  let rho := Real.sqrt (y ^ 2 + z ^ 2)
  let x2 := x * x
  let denom2 := (R + rho) ^ 2 + x2
  let denom := Real.sqrt denom2
  let factor := mu0 * I * N / (2 * Real.pi * denom)
  let rho2 := rho * rho
  let aMinusRho2 := (R - rho) ^ 2
  let bRho := factor * (x / rho) *
    (-(Real.pi / 2) + ((R * R + rho2 + x2) / (aMinusRho2 + x2)) * (Real.pi / 2))
  let bX := factor *
    (Real.pi / 2 + ((R * R - rho2 - x2) / (aMinusRho2 + x2)) * (Real.pi / 2))
  (bX, bRho * (y / rho), bRho * (z / rho))

/-- Decides whether an `Except` result is the elliptic-integral domain
error. -/
def isDomainErr {α : Type} (r : Except Err α) : Bool :=
  match r with
  | Except.error Err.domainError => true
  | _ => false

/-- The distinct rejection messages of the two button handlers:
missing (NaN-parsed) input, nonpositive radius, nonpositive resistance,
nonpositive turn count. -/
inductive ValidationError where
  | missingInput
  | nonPositiveR
  | nonPositiveOmega
  | nonPositiveN
  deriving DecidableEq

/-- The single-coil button handler `main` of `single_coil.js` after
parsing: `parseFloat` results are `Option ℝ` (`none` for NaN),
`parseInt` results `Option ℤ`.  The NaN check runs first, then
`R <= 0`, `Omega <= 0`, `N <= 0`; only if all pass is
`coilFieldWithGrad` invoked. -/
def runSingleCoil (fuel : ℕ) (x y z R I Om : Option ℝ) (N : Option ℤ) :
    Except ValidationError (Except Err GradResult) :=
  match x, y, z, R, I, Om, N with
  | some xv, some yv, some zv, some Rv, some Iv, some Omv, some Nv =>
    if Rv ≤ 0 then Except.error ValidationError.nonPositiveR
    else if Omv ≤ 0 then Except.error ValidationError.nonPositiveOmega
    else if Nv ≤ 0 then Except.error ValidationError.nonPositiveN
    else Except.ok (coilFieldWithGrad fuel xv yv zv Rv Iv (Nv : ℝ))
  | _, _, _, _, _, _, _ => Except.error ValidationError.missingInput

/-- The Helmholtz button handler `main` of the Helmholtz file after
parsing, with the same validation chain, invoking `helmholtzField` only
if all checks pass. -/
def runHelmholtz (fuel : ℕ) (x y z R V Om : Option ℝ) (N : Option ℤ) :
    Except ValidationError (Except Err (ℝ × ℝ × ℝ)) :=
  match x, y, z, R, V, Om, N with
  | some xv, some yv, some zv, some Rv, some Vv, some Omv, some Nv =>
    if Rv ≤ 0 then Except.error ValidationError.nonPositiveR
    else if Omv ≤ 0 then Except.error ValidationError.nonPositiveOmega
    else if Nv ≤ 0 then Except.error ValidationError.nonPositiveN
    else Except.ok (helmholtzField fuel xv yv zv Rv Vv Omv (Nv : ℝ))
  | _, _, _, _, _, _, _ => Except.error ValidationError.missingInput

/-- The bad-input classes listed by the specification: zero or negative
radius, zero or negative resistance, zero turn count, turn count `-1`,
or any NaN-parsed field. -/
def badInputs (x y z R IV Om : Option ℝ) (N : Option ℤ) : Prop :=
  R = some 0 ∨ (∃ r, R = some r ∧ r < 0) ∨
  Om = some 0 ∨ (∃ w, Om = some w ∧ w < 0) ∨
  N = some 0 ∨ N = some (-1) ∨
  x = none ∨ y = none ∨ z = none ∨ R = none ∨ IV = none ∨ Om = none ∨ N = none

/-- Invariant of the AGM loop state: both means are positive, the
geometric mean `b` stays below the arithmetic mean `a`, and `b` never
drops below its starting value `b0`. -/
def AgmInv (b0 : ℝ) (s : AgmState) : Prop :=
  0 < s.b ∧ s.b ≤ s.a ∧ b0 ≤ s.b

/-- Concrete `GradResult` produced by `coilFieldWithGrad 0 0 0 0 (-2) 1 1`
(a negative radius keeps every elliptic parameter clamped at `0`, so the
evaluation is closed-form). -/
def gradProbe : GradResult :=
  { B := onAxisField 0 (-0.02) 1 1
    Bmag := magV (onAxisField 0 (-0.02) 1 1)
    grad := ((magV (onAxisField 1e-5 (-0.02) 1 1) -
              magV (onAxisField (-1e-5) (-0.02) 1 1)) / (2 * 1e-5),
             (magV (offAxisK0 0 1e-5 0 (-0.02) 1 1) -
              magV (offAxisK0 0 (-1e-5) 0 (-0.02) 1 1)) / (2 * 1e-5),
             (magV (offAxisK0 0 0 1e-5 (-0.02) 1 1) -
              magV (offAxisK0 0 0 (-1e-5) (-0.02) 1 1)) / (2 * 1e-5)) }

/-- Concrete value of `helmholtzField 0 1 0 0 2 1 1 1` (an on-axis
field point, so both loop evaluations take the closed axial branch). -/
def helmProbe : ℝ × ℝ × ℝ :=
  addV (addV (0, 0, 0) (helmOnAxis 1 1 0.02 0.02)) (helmOnAxis 1 1 0.02 0)

/-! ### Basic computation lemmas -/

@[simp]
lemma ok_bind {α β : Type} (a : α) (f : α → Except Err β) :
    (Except.ok a : Except Err α) >>= f = f a := rfl

@[simp]
lemma error_bind {α β : Type} (e : Err) (f : α → Except Err β) :
    (Except.error e : Except Err α) >>= f = Except.error e := rfl

@[simp]
lemma map_ok {α β : Type} (f : α → β) (a : α) :
    (Except.ok a : Except Err α).map f = Except.ok (f a) := rfl

@[simp]
lemma map_error {α β : Type} (f : α → β) (e : Err) :
    (Except.error e : Except Err α).map f = Except.error e := rfl

@[simp]
lemma pure_eq_ok {α : Type} (a : α) : (pure a : Except Err α) = Except.ok a := rfl

@[simp]
lemma exbind_ok {α β : Type} (a : α) (f : α → Except Err β) :
    Except.bind (Except.ok a : Except Err α) f = f a := rfl

@[simp]
lemma exbind_error {α β : Type} (e : Err) (f : α → Except Err β) :
    Except.bind (Except.error e : Except Err α) f = Except.error e := rfl

lemma tol_pos : 0 < tol := by norm_num [tol]

/-- If the loop condition is already false, the loop returns its state
unchanged whatever the fuel. -/
lemma agmGo_exit {s : AgmState} (h : ¬ tol * s.a < |s.c|) (n : ℕ) :
    agmGo n s = some s := by
  cases n <;> simp [agmGo, h]

/-- `ellipticKE` at `m = 0` needs no iterations and returns
`(PI/2, PI/2)`. -/
lemma ellipticKE_zero (fuel : ℕ) :
    ellipticKE fuel 0 = Except.ok (Real.pi / 2, Real.pi / 2) := by
  have hguard : ¬ ((0 : ℝ) < 0 ∨ (1 : ℝ) ≤ 0) := by norm_num
  have hinit : agmInit 0 = { a := 1, b := 1, c := 0, sum := 0, pow := 1 } := by
    simp [agmInit, Real.sqrt_one]
  have hcond : ¬ tol * (1 : ℝ) < |(0 : ℝ)| := by
    simp only [abs_zero, mul_one]
    norm_num [tol]
  rw [ellipticKE, if_neg hguard, hinit, agmGo_exit hcond]
  norm_num

/-- The on-axis branch of `loopFieldMeters`. -/
lemma loopFieldMeters_onAxis (fuel : ℕ) (x R I N : ℝ) :
    loopFieldMeters fuel x 0 0 R I N = Except.ok (onAxisField x R I N) := by
  have h : Real.sqrt ((0 : ℝ) ^ 2 + (0 : ℝ) ^ 2) = 0 := by
    norm_num
  simp [loopFieldMeters, h, onAxisField]

/-- The on-axis branch of the Helmholtz file's `loopField`. -/
lemma helmLoopField_onAxis (fuel : ℕ) (I N x a x0 : ℝ) :
    helmLoopField fuel I N x 0 0 a x0 = Except.ok (helmOnAxis I N a (x - x0)) := by
  have h : Real.sqrt ((0 : ℝ) ^ 2 + (0 : ℝ) ^ 2) = 0 := by
    norm_num
  simp [helmLoopField, h, helmOnAxis]

/-- Off-axis evaluation of `loopFieldMeters` when the raw elliptic
parameter is nonpositive, so that the clamp sends it to `0` and
`K = E = PI/2`. -/
lemma loopFieldMeters_K0 (fuel : ℕ) (x y z R I N : ℝ)
    (hrho : Real.sqrt (y ^ 2 + z ^ 2) ≠ 0)
    (hk : 4 * R * Real.sqrt (y ^ 2 + z ^ 2) /
      ((R + Real.sqrt (y ^ 2 + z ^ 2)) ^ 2 + x * x) ≤ 0) :
    loopFieldMeters fuel x y z R I N = Except.ok (offAxisK0 x y z R I N) := by
  have hclamp : min (1 - 1e-14) (max 0
      (4 * R * Real.sqrt (y ^ 2 + z ^ 2) /
        ((R + Real.sqrt (y ^ 2 + z ^ 2)) ^ 2 + x * x))) = (0 : ℝ) := by
    rw [max_eq_left hk, min_eq_right (by norm_num)]
  simp only [loopFieldMeters, if_neg hrho, hclamp, ellipticKE_zero, offAxisK0]

/-! ### Termination of the AGM iteration -/

lemma sqrt_le_avg {a b : ℝ} (ha : 0 ≤ a) (hb : 0 ≤ b) :
    Real.sqrt (a * b) ≤ (a + b) / 2 := by
  nlinarith [sq_nonneg (Real.sqrt a - Real.sqrt b), Real.sq_sqrt ha, Real.sq_sqrt hb,
    Real.sqrt_nonneg a, Real.sqrt_nonneg b, Real.sqrt_mul ha b]

lemma le_sqrt_mul {a b : ℝ} (hb : 0 < b) (hab : b ≤ a) : b ≤ Real.sqrt (a * b) := by
  have h1 : Real.sqrt (b * b) = b := Real.sqrt_mul_self hb.le
  calc b = Real.sqrt (b * b) := h1.symm
    _ ≤ Real.sqrt (a * b) := Real.sqrt_le_sqrt (by nlinarith)

lemma agmInv_step {b0 : ℝ} {s : AgmState} (h : AgmInv b0 s) :
    AgmInv b0 (agmStep s) := by
  obtain ⟨hb, hba, hb0⟩ := h
  have ha : 0 < s.a := lt_of_lt_of_le hb hba
  refine ⟨?_, ?_, ?_⟩
  · exact Real.sqrt_pos.mpr (mul_pos ha hb)
  · exact sqrt_le_avg ha.le hb.le
  · exact le_trans hb0 (le_sqrt_mul hb hba)

lemma agmStep_gap {b0 : ℝ} {s : AgmState} (h : AgmInv b0 s) :
    (agmStep s).a - (agmStep s).b ≤ (s.a - s.b) / 2 := by
  obtain ⟨hb, hba, hb0⟩ := h
  have h1 := le_sqrt_mul hb hba
  simp only [agmStep]
  linarith

lemma agmInv_iterate {b0 : ℝ} {s : AgmState} (h : AgmInv b0 s) (k : ℕ) :
    AgmInv b0 (agmStep^[k] s) := by
  induction k with
  | zero => simpa using h
  | succ n ih =>
    rw [Function.iterate_succ_apply']
    exact agmInv_step ih

lemma agm_gap_iterate {b0 : ℝ} {s : AgmState} (h : AgmInv b0 s) (k : ℕ) :
    (agmStep^[k] s).a - (agmStep^[k] s).b ≤ (s.a - s.b) / 2 ^ k := by
  induction k with
  | zero => simp
  | succ n ih =>
    rw [Function.iterate_succ_apply']
    have h1 := agmStep_gap (agmInv_iterate h n)
    have h2 : (s.a - s.b) / 2 ^ (n + 1) = ((s.a - s.b) / 2 ^ n) / 2 := by
      rw [pow_succ]; ring
    rw [h2]
    linarith

lemma agm_c_iterate (s : AgmState) (k : ℕ) :
    (agmStep^[k + 1] s).c = ((agmStep^[k] s).a - (agmStep^[k] s).b) / 2 := by
  rw [Function.iterate_succ_apply']
  rfl

lemma agmGo_isSome {n : ℕ} :
    ∀ s : AgmState, ¬ tol * (agmStep^[n] s).a < |(agmStep^[n] s).c| →
      (agmGo n s).isSome = true := by
  induction n with
  | zero =>
    intro s h
    simp only [Function.iterate_zero, id_eq] at h
    simp [agmGo, h]
  | succ k ih =>
    intro s h
    by_cases hc : tol * s.a < |s.c|
    · simp only [agmGo, hc, if_true]
      exact ih (agmStep s) (by rw [← Function.iterate_succ_apply]; exact h)
    · simp [agmGo, hc]

/-- For every `m` in `[0, 1)` the AGM loop exits after finitely many
iterations: some fuel makes `agmGo` return `some`. -/
lemma agm_terminates_aux {m : ℝ} (h0 : 0 ≤ m) (h1 : m < 1) :
    ∃ fuel : ℕ, (agmGo fuel (agmInit m)).isSome = true := by
  set b0 := Real.sqrt (1 - m) with hb0def
  have hb0 : 0 < b0 := Real.sqrt_pos.mpr (by linarith)
  have hb0le : b0 ≤ 1 := Real.sqrt_le_one.mpr (by linarith)
  have hinv : AgmInv b0 (agmInit m) := by
    refine ⟨hb0, ?_, le_refl _⟩
    show b0 ≤ 1
    exact hb0le
  obtain ⟨n, hn⟩ := exists_pow_lt_of_lt_one (mul_pos tol_pos hb0)
    (by norm_num : (1 / 2 : ℝ) < 1)
  refine ⟨n + 1, agmGo_isSome (agmInit m) ?_⟩
  have hinvN := agmInv_iterate hinv (n + 1)
  have hinvn := agmInv_iterate hinv n
  have hgap := agm_gap_iterate hinv n
  have hgap0 : (agmInit m).a - (agmInit m).b ≤ 1 := by
    have := Real.sqrt_nonneg (1 - m)
    simp only [agmInit]
    linarith
  have hgapn_nonneg : 0 ≤ (agmStep^[n] (agmInit m)).a - (agmStep^[n] (agmInit m)).b := by
    have := hinvn.2.1; linarith
  have hcval : |(agmStep^[n + 1] (agmInit m)).c| =
      ((agmStep^[n] (agmInit m)).a - (agmStep^[n] (agmInit m)).b) / 2 := by
    rw [agm_c_iterate, abs_of_nonneg (by linarith)]
  rw [not_lt, hcval]
  have h2n : (agmStep^[n] (agmInit m)).a - (agmStep^[n] (agmInit m)).b ≤ (1 / 2) ^ n := by
    have hhalf : ((agmInit m).a - (agmInit m).b) / 2 ^ n ≤ (1 / 2 : ℝ) ^ n := by
      rw [div_pow, one_pow]
      exact div_le_div_of_nonneg_right hgap0 (by positivity) |>.trans_eq rfl
    exact le_trans hgap hhalf
  have hb0a : b0 ≤ (agmStep^[n + 1] (agmInit m)).a := le_trans hinvN.2.2 hinvN.2.1
  have htola : tol * b0 ≤ tol * (agmStep^[n + 1] (agmInit m)).a :=
    mul_le_mul_of_nonneg_left hb0a tol_pos.le
  have hpos : (0 : ℝ) ≤ (1 / 2 : ℝ) ^ n := by positivity
  linarith

/-! ### Structure of the Helmholtz superposition -/

/-- `helmholtzField` unfolded to its two sequential loop evaluations:
the first error (if any) propagates, otherwise the componentwise sum is
returned. -/
lemma helmholtz_eq_bind (fuel : ℕ) (x y z R V Om N : ℝ) :
    helmholtzField fuel x y z R V Om N =
      (helmLoopField fuel (V / Om) N (x * 1e-2) (y * 1e-2) (z * 1e-2) (R * 1e-2)
          (-(R * 1e-2 / 2))).bind (fun v1 =>
        (helmLoopField fuel (V / Om) N (x * 1e-2) (y * 1e-2) (z * 1e-2) (R * 1e-2)
            (R * 1e-2 / 2)).map (fun v2 =>
          (v1.1 + v2.1, v1.2.1 + v2.2.1, v1.2.2 + v2.2.2))) := by
  rcases h1 : helmLoopField fuel (V / Om) N (x * 1e-2) (y * 1e-2) (z * 1e-2) (R * 1e-2)
      (-(R * 1e-2 / 2)) with e1 | v1
  · simp [helmholtzField, mapExcept, h1, Except.bind]
  · rcases h2 : helmLoopField fuel (V / Om) N (x * 1e-2) (y * 1e-2) (z * 1e-2) (R * 1e-2)
        (R * 1e-2 / 2) with e2 | v2
    · simp [helmholtzField, mapExcept, h1, h2, Except.bind]
    · simp [helmholtzField, mapExcept, h1, h2, Except.bind, Except.map, addV]

/-! ### Linearity in the current -/

lemma loopFieldMeters_double (fuel : ℕ) (x y z R I N : ℝ) :
    loopFieldMeters fuel x y z R (2 * I) N =
      (loopFieldMeters fuel x y z R I N).map
        (fun v => (2 * v.1, 2 * v.2.1, 2 * v.2.2)) := by
  simp only [loopFieldMeters]
  split_ifs with h
  · simp only [map_ok, Except.ok.injEq, Prod.mk.injEq]
    refine ⟨by ring, by norm_num, by norm_num⟩
  · rcases hKE : ellipticKE fuel (min (1 - 1e-14) (max 0
        (4 * R * Real.sqrt (y ^ 2 + z ^ 2) /
          ((R + Real.sqrt (y ^ 2 + z ^ 2)) ^ 2 + x * x)))) with e | KE
    · rfl
    · obtain ⟨K, E⟩ := KE
      simp only [map_ok, Except.ok.injEq, Prod.mk.injEq]
      refine ⟨by ring, by ring, by ring⟩

lemma helmLoopField_double (fuel : ℕ) (I N xp yp zp a x0 : ℝ) :
    helmLoopField fuel (2 * I) N xp yp zp a x0 =
      (helmLoopField fuel I N xp yp zp a x0).map
        (fun v => (2 * v.1, 2 * v.2.1, 2 * v.2.2)) := by
  simp only [helmLoopField]
  split_ifs with h
  · simp only [map_ok, Except.ok.injEq, Prod.mk.injEq]
    refine ⟨by ring, by norm_num, by norm_num⟩
  · rcases hKE : ellipticKE fuel (4 * a * Real.sqrt (yp ^ 2 + zp ^ 2) /
        ((a + Real.sqrt (yp ^ 2 + zp ^ 2)) ^ 2 + (xp - x0) * (xp - x0))) with e | KE
    · rfl
    · obtain ⟨K, E⟩ := KE
      simp only [map_ok, Except.ok.injEq, Prod.mk.injEq]
      refine ⟨by ring, by ring, by ring⟩

lemma magV_double (v : ℝ × ℝ × ℝ) :
    magV (2 * v.1, 2 * v.2.1, 2 * v.2.2) = 2 * magV v := by
  unfold magV
  rw [show ((2 * v.1) ^ 2 + (2 * v.2.1) ^ 2 + (2 * v.2.2) ^ 2) =
        2 ^ 2 * (v.1 ^ 2 + v.2.1 ^ 2 + v.2.2 ^ 2) by ring,
    Real.sqrt_mul (by positivity), Real.sqrt_sq (by norm_num)]

lemma helmholtzField_double (fuel : ℕ) (x y z R V Om N : ℝ) :
    helmholtzField fuel x y z R (2 * V) Om N =
      (helmholtzField fuel x y z R V Om N).map
        (fun v => (2 * v.1, 2 * v.2.1, 2 * v.2.2)) := by
  rw [helmholtz_eq_bind, helmholtz_eq_bind,
    show (2 * V) / Om = 2 * (V / Om) by ring,
    helmLoopField_double, helmLoopField_double]
  rcases h1 : helmLoopField fuel (V / Om) N (x * 1e-2) (y * 1e-2) (z * 1e-2) (R * 1e-2)
      (-(R * 1e-2 / 2)) with e1 | v1
  · rfl
  · rcases h2 : helmLoopField fuel (V / Om) N (x * 1e-2) (y * 1e-2) (z * 1e-2) (R * 1e-2)
        (R * 1e-2 / 2) with e2 | v2
    · rfl
    · simp only [map_ok, Except.bind, Except.map, Except.ok.injEq, Prod.mk.injEq]
      refine ⟨by ring, by ring, by ring⟩

/-! ### Claim theorems -/

/-- Claim C9: the AGM while-loop in `ellipticKE` terminates for every
`m` in `[0, 1)` even though the source imposes no iteration cap: in the
fuel model, some finite fuel makes `ellipticKE` return a value, so the
routine is a total function on its valid domain. -/
theorem ellipticKE_terminates (m : ℝ) (h0 : 0 ≤ m) (h1 : m < 1) :
    ∃ (fuel : ℕ) (K E : ℝ), ellipticKE fuel m = Except.ok (K, E) := by
  obtain ⟨fuel, hsome⟩ := agm_terminates_aux h0 h1
  obtain ⟨s, hs⟩ := Option.isSome_iff_exists.mp hsome
  refine ⟨fuel, Real.pi / (2 * s.a), Real.pi / (2 * s.a) * (1 - s.sum), ?_⟩
  have hguard : ¬ (m < 0 ∨ 1 ≤ m) := by push_neg; exact ⟨h0, h1⟩
  rw [ellipticKE, if_neg hguard, hs]

/-- Witness for the termination theorem, at `m = 1/2`. -/
theorem ellipticKE_terminates_witness :
    (0 : ℝ) ≤ 1 / 2 ∧ (1 / 2 : ℝ) < 1 ∧
      ∃ (fuel : ℕ) (K E : ℝ), ellipticKE fuel (1 / 2) = Except.ok (K, E) :=
  ⟨by norm_num, by norm_num,
    ellipticKE_terminates (1 / 2) (by norm_num) (by norm_num)⟩

/-- Claim C4: at any field point whose radial distance from the axis is
exactly zero, both loop-field routines take the on-axis branch and
return `Bx = mu0*I*N*R^2 / (2*(R^2 + zax^2)^1.5)` with `By = Bz = 0`,
where `zax` is the axial displacement from the loop's own centre (`x`
for the single-coil routine, `x - x0` for the Helmholtz one). -/
theorem loopField_on_axis_closed_form (fuel : ℕ) (x y z R I N x0 : ℝ)
    (hrho : Real.sqrt (y ^ 2 + z ^ 2) = 0) :
    loopFieldMeters fuel x y z R I N =
      Except.ok (mu0 * I * N * R * R / (2 * (R * R + x * x) ^ (1.5 : ℝ)), 0, 0) ∧
    helmLoopField fuel I N x y z R x0 =
      Except.ok (mu0 * I * N * R * R /
        (2 * (R * R + (x - x0) * (x - x0)) ^ (1.5 : ℝ)), 0, 0) := by
  constructor
  · simp [loopFieldMeters, hrho]
  · simp [helmLoopField, hrho]

/-- Witness for the on-axis closed form, at the point `(1, 0, 0)` with
`R = I = N = 1` and loop centre `x0 = 0`. -/
theorem loopField_on_axis_closed_form_witness :
    Real.sqrt ((0 : ℝ) ^ 2 + (0 : ℝ) ^ 2) = 0 ∧
    (loopFieldMeters 0 1 0 0 1 1 1 =
      Except.ok (mu0 * 1 * 1 * 1 * 1 / (2 * ((1 : ℝ) * 1 + 1 * 1) ^ (1.5 : ℝ)), 0, 0) ∧
     helmLoopField 0 1 1 1 0 0 1 0 =
      Except.ok (mu0 * 1 * 1 * 1 * 1 /
        (2 * ((1 : ℝ) * 1 + (1 - 0) * (1 - 0)) ^ (1.5 : ℝ)), 0, 0)) :=
  ⟨by norm_num, loopField_on_axis_closed_form 0 1 0 0 1 1 1 0 (by norm_num)⟩

/-- Claim C2 (failing evaluation): the Helmholtz pipeline does not
clamp the elliptic parameter before calling `ellipticKE`.  A field
point lying exactly on the wire of its first loop (`rho = R`,
`zax = 0`, here `x = -1 cm`, `y = 2 cm`, `R = 2 cm`) drives the
parameter to exactly `1`, and the domain error escapes from inside the
field computation. -/
theorem helmholtz_onwire_domain_error :
    helmholtzField 100 (-1) 2 0 2 10 10 100 = Except.error Err.domainError := by
  have hrho : Real.sqrt ((2 * 1e-2 : ℝ) ^ 2 + (0 * 1e-2) ^ 2) = 0.02 := by
    rw [show ((2 * 1e-2 : ℝ) ^ 2 + (0 * 1e-2) ^ 2) = 0.02 ^ 2 by norm_num,
      Real.sqrt_sq (by norm_num)]
  have hKE : ellipticKE 100 1 = Except.error Err.domainError := by
    rw [ellipticKE, if_pos (Or.inr le_rfl)]
  have hkSq : (4 * (2 * 1e-2) * (0.02 : ℝ) /
      ((2 * 1e-2 + 0.02) ^ 2 +
        ((-1) * 1e-2 - -(2 * 1e-2 / 2)) * ((-1) * 1e-2 - -(2 * 1e-2 / 2)))) = 1 := by
    norm_num
  have hfirst : helmLoopField 100 (10 / 10) 100 ((-1) * 1e-2) (2 * 1e-2) (0 * 1e-2)
      (2 * 1e-2) (-(2 * 1e-2 / 2)) = Except.error Err.domainError := by
    simp only [helmLoopField, hrho]
    rw [if_neg (by norm_num), hkSq, hKE]
  simp only [helmholtzField, mapExcept, hfirst, error_bind]

/-- Claim C3: `helmholtzField` returns, componentwise, exactly the
vector sum of the single-loop field evaluated at axial offsets `-R/2`
and `+R/2`, both with the same radius `R` (in meters), turn count `N`,
and current `I = V/Omega`; an error from either evaluation propagates
in evaluation order. -/
theorem helmholtz_superposition (fuel : ℕ) (x y z R V Om N : ℝ) :
    helmholtzField fuel x y z R V Om N =
      (helmLoopField fuel (V / Om) N (x * 1e-2) (y * 1e-2) (z * 1e-2) (R * 1e-2)
          (-(R * 1e-2 / 2))).bind (fun v1 =>
        (helmLoopField fuel (V / Om) N (x * 1e-2) (y * 1e-2) (z * 1e-2) (R * 1e-2)
            (R * 1e-2 / 2)).map (fun v2 =>
          (v1.1 + v2.1, v1.2.1 + v2.2.1, v1.2.2 + v2.2.2))) :=
  helmholtz_eq_bind fuel x y z R V Om N

/-- Claim C7: the returned field scales linearly in the current.
Doubling `I` doubles each component of the single-coil loop field and
doubles the field magnitude, and doubling `V` at fixed `Omega` doubles
each component of the Helmholtz field; errors are unaffected. -/
theorem field_linear_in_current (fuel : ℕ) (x y z R I N Om : ℝ) :
    loopFieldMeters fuel x y z R (2 * I) N =
      (loopFieldMeters fuel x y z R I N).map
        (fun v => (2 * v.1, 2 * v.2.1, 2 * v.2.2)) ∧
    loopMag fuel x y z R (2 * I) N =
      (loopMag fuel x y z R I N).map (fun m => 2 * m) ∧
    helmholtzField fuel x y z R (2 * I) Om N =
      (helmholtzField fuel x y z R I Om N).map
        (fun v => (2 * v.1, 2 * v.2.1, 2 * v.2.2)) := by
  refine ⟨loopFieldMeters_double fuel x y z R I N, ?_,
    helmholtzField_double fuel x y z R I Om N⟩
  unfold loopMag
  rw [loopFieldMeters_double]
  rcases h : loopFieldMeters fuel x y z R I N with e | v
  · rfl
  · simp [magV_double]

/-! ### Mirror symmetry -/

lemma helmLoopField_mirror (fuel : ℕ) (I N xp yp zp a x0 : ℝ) :
    helmLoopField fuel I N (-xp) yp zp a x0 =
      (helmLoopField fuel I N xp yp zp a (-x0)).map
        (fun v => (v.1, -v.2.1, -v.2.2)) := by
  simp only [helmLoopField]
  rw [show -xp - x0 = -(xp - -x0) by ring]
  simp only [show (-(xp - -x0)) * (-(xp - -x0)) = (xp - -x0) * (xp - -x0) from by ring]
  split_ifs with h
  · simp only [map_ok, Except.ok.injEq, Prod.mk.injEq]
    norm_num
  · rcases hKE : ellipticKE fuel (4 * a * Real.sqrt (yp ^ 2 + zp ^ 2) /
        ((a + Real.sqrt (yp ^ 2 + zp ^ 2)) ^ 2 + (xp - -x0) * (xp - -x0))) with e | KE
    · rfl
    · obtain ⟨K, E⟩ := KE
      simp only [map_ok, Except.ok.injEq, Prod.mk.injEq]
      refine ⟨?_, by ring, by ring⟩
      norm_num

/-- Claim C10: `helmholtzField` is mirror-symmetric about the pair's
midplane: whenever it returns normally at `(x, y, z)`, it also returns
normally at `(-x, y, z)` with the same `Bx` component. -/
theorem helmholtz_mirror_symmetry (fuel : ℕ) (x y z R V Om N : ℝ) (v : ℝ × ℝ × ℝ)
    (h : helmholtzField fuel x y z R V Om N = Except.ok v) :
    ∃ w, helmholtzField fuel (-x) y z R V Om N = Except.ok w ∧ w.1 = v.1 := by
  rw [helmholtz_eq_bind] at h
  rcases h1 : helmLoopField fuel (V / Om) N (x * 1e-2) (y * 1e-2) (z * 1e-2) (R * 1e-2)
      (-(R * 1e-2 / 2)) with e1 | v1
  · rw [h1] at h
    simp at h
  · rcases h2 : helmLoopField fuel (V / Om) N (x * 1e-2) (y * 1e-2) (z * 1e-2) (R * 1e-2)
        (R * 1e-2 / 2) with e2 | v2
    · rw [h1, h2] at h
      simp at h
    · rw [h1, h2] at h
      simp only [Except.bind, map_ok, Except.ok.injEq] at h
      rw [helmholtz_eq_bind, show (-x) * 1e-2 = -(x * 1e-2) by ring,
        helmLoopField_mirror, helmLoopField_mirror, neg_neg, h1, h2]
      refine ⟨_, rfl, ?_⟩
      subst h
      simp only [map_ok, Except.bind]
      ring

/-- Claim C5: at the geometric centre of the Helmholtz pair with
`R = 10 cm`, `N = 100`, `V = 10`, `Omega = 10` (so `I = 1 A`), the
returned field is purely axial and `Bx` agrees with the textbook value
`mu0*N*I*(4/5)^1.5 / R` to within one percent (in the real-number model
the two expressions coincide exactly, so the bound is immediate). -/
theorem helmholtz_center_value (fuel : ℕ) :
    ∃ bx : ℝ,
      helmholtzField fuel 0 0 0 10 10 10 100 = Except.ok (bx, 0, 0) ∧
      |bx - mu0 * 100 * 1 * ((4 : ℝ) / 5) ^ (1.5 : ℝ) / 0.1| ≤
        (1 / 100) * (mu0 * 100 * 1 * ((4 : ℝ) / 5) ^ (1.5 : ℝ) / 0.1) := by
  have h001 : ((0.01 : ℝ)) ^ (1.5 : ℝ) = 0.001 := by
    have h1 : ((0.01 : ℝ)) = (0.1 : ℝ) ^ ((2 : ℕ) : ℝ) := by
      rw [Real.rpow_natCast]; norm_num
    rw [h1, ← Real.rpow_mul (by norm_num : (0 : ℝ) ≤ 0.1),
      show (((2 : ℕ) : ℝ) * 1.5) = ((3 : ℕ) : ℝ) by norm_num,
      Real.rpow_natCast]
    norm_num
  have hkey : ((4 : ℝ) / 5) ^ (1.5 : ℝ) * (0.0125 : ℝ) ^ (1.5 : ℝ) = 0.001 := by
    rw [← Real.mul_rpow (by norm_num) (by norm_num),
      show ((4 : ℝ) / 5) * 0.0125 = 0.01 by norm_num, h001]
  have hP : (0 : ℝ) < (0.0125 : ℝ) ^ (1.5 : ℝ) :=
    Real.rpow_pos_of_pos (by norm_num) _
  refine ⟨mu0 * 100 * 1 * ((4 : ℝ) / 5) ^ (1.5 : ℝ) / 0.1, ?_, ?_⟩
  · rw [helmholtz_eq_bind,
      show (0 : ℝ) * 1e-2 = 0 by norm_num,
      show (10 : ℝ) * 1e-2 = 0.1 by norm_num,
      show (10 : ℝ) / 10 = 1 by norm_num,
      helmLoopField_onAxis, helmLoopField_onAxis]
    simp only [map_ok, Except.bind, helmOnAxis, Except.ok.injEq, Prod.mk.injEq]
    refine ⟨?_, by norm_num, by norm_num⟩
    rw [show ((0.1 : ℝ) * 0.1 + (0 - -(0.1 / 2)) * (0 - -(0.1 / 2))) = 0.0125 by norm_num,
      show ((0.1 : ℝ) * 0.1 + (0 - 0.1 / 2) * (0 - 0.1 / 2)) = 0.0125 by norm_num,
      div_add_div_same, div_eq_div_iff (by positivity) (by norm_num : (0.1 : ℝ) ≠ 0)]
    linear_combination (-200 : ℝ) * mu0 * hkey
  · rw [sub_self, abs_zero]
    have hm : 0 ≤ mu0 := by
      unfold mu0
      positivity
    positivity

/-- Claim C6: whenever `coilFieldWithGrad` returns a result `r`, the
`grad` field of `r` is exactly the central-difference gradient
`centralDiffGrad` (per-axis centred differences of the loop-field
magnitude with step `h = max(1e-5, R*1e-4)` meters), and the
instrumented variant counts exactly `7` loop-field evaluations: the one
at the base point plus six additional ones. -/
theorem grad_central_difference (fuel : ℕ) (x_cm y_cm z_cm R_cm I N : ℝ)
    (r : GradResult)
    (h : coilFieldWithGrad fuel x_cm y_cm z_cm R_cm I N = Except.ok r) :
    centralDiffGrad fuel x_cm y_cm z_cm R_cm I N = Except.ok r.grad ∧
    coilFieldWithGradCounted fuel x_cm y_cm z_cm R_cm I N = Except.ok (r, 7) := by
  simp only [coilFieldWithGrad, loopMag] at h
  rcases hb : loopFieldMeters fuel (x_cm * 1e-2) (y_cm * 1e-2) (z_cm * 1e-2)
      (R_cm * 1e-2) I N with e | vB
  · rw [hb] at h; simp at h
  rw [hb] at h
  simp only [ok_bind] at h
  rcases hL1 : loopFieldMeters fuel (x_cm * 1e-2 + max 1e-5 (R_cm * 1e-2 * 1e-4))
      (y_cm * 1e-2) (z_cm * 1e-2) (R_cm * 1e-2) I N with e | v1
  · rw [hL1] at h; simp at h
  rw [hL1] at h
  simp only [map_ok, ok_bind] at h
  rcases hL2 : loopFieldMeters fuel (x_cm * 1e-2 - max 1e-5 (R_cm * 1e-2 * 1e-4))
      (y_cm * 1e-2) (z_cm * 1e-2) (R_cm * 1e-2) I N with e | v2
  · rw [hL2] at h; simp at h
  rw [hL2] at h
  simp only [map_ok, ok_bind] at h
  rcases hL3 : loopFieldMeters fuel (x_cm * 1e-2)
      (y_cm * 1e-2 + max 1e-5 (R_cm * 1e-2 * 1e-4)) (z_cm * 1e-2)
      (R_cm * 1e-2) I N with e | v3
  · rw [hL3] at h; simp at h
  rw [hL3] at h
  simp only [map_ok, ok_bind] at h
  rcases hL4 : loopFieldMeters fuel (x_cm * 1e-2)
      (y_cm * 1e-2 - max 1e-5 (R_cm * 1e-2 * 1e-4)) (z_cm * 1e-2)
      (R_cm * 1e-2) I N with e | v4
  · rw [hL4] at h; simp at h
  rw [hL4] at h
  simp only [map_ok, ok_bind] at h
  rcases hL5 : loopFieldMeters fuel (x_cm * 1e-2) (y_cm * 1e-2)
      (z_cm * 1e-2 + max 1e-5 (R_cm * 1e-2 * 1e-4))
      (R_cm * 1e-2) I N with e | v5
  · rw [hL5] at h; simp at h
  rw [hL5] at h
  simp only [map_ok, ok_bind] at h
  rcases hL6 : loopFieldMeters fuel (x_cm * 1e-2) (y_cm * 1e-2)
      (z_cm * 1e-2 - max 1e-5 (R_cm * 1e-2 * 1e-4))
      (R_cm * 1e-2) I N with e | v6
  · rw [hL6] at h; simp at h
  rw [hL6] at h
  simp only [map_ok, ok_bind] at h
  simp only [pure_eq_ok, Except.ok.injEq] at h
  subst h
  constructor
  · simp only [centralDiffGrad, loopMag]
    rw [hL1, hL2, hL3, hL4, hL5, hL6]
    simp only [map_ok, ok_bind]
    rfl
  · simp only [coilFieldWithGradCounted, loopMagCounted]
    rw [hb, hL1, hL2, hL3, hL4, hL5, hL6]
    simp only [map_ok, ok_bind]
    norm_num

/-- With a nonpositive radius the raw elliptic parameter of
`loopFieldMeters` is nonpositive, whatever the field point. -/
lemma kSqRaw_nonpos_of_R_nonpos {x y z R : ℝ} (hR : R ≤ 0) :
    4 * R * Real.sqrt (y ^ 2 + z ^ 2) /
      ((R + Real.sqrt (y ^ 2 + z ^ 2)) ^ 2 + x * x) ≤ 0 := by
  apply div_nonpos_iff.mpr
  refine Or.inr ⟨?_, ?_⟩
  · have hs := Real.sqrt_nonneg (y ^ 2 + z ^ 2)
    nlinarith
  · have h1 : 0 ≤ (R + Real.sqrt (y ^ 2 + z ^ 2)) ^ 2 := sq_nonneg _
    nlinarith [mul_self_nonneg x]

/-- Closed-form evaluation of `coilFieldWithGrad` at the probe input
`(0, 0, 0)`, `R = -2 cm`, `I = N = 1`: the base point and the two
x-shifted points are on-axis, and the four y/z-shifted points have a
clamped elliptic parameter of `0`, so no AGM iterations are needed. -/
lemma gradProbe_eval :
    coilFieldWithGrad 0 0 0 0 (-2) 1 1 = Except.ok gradProbe := by
  have hrho1 : Real.sqrt ((1e-5 : ℝ) ^ 2 + 0 ^ 2) ≠ 0 :=
    Real.sqrt_ne_zero'.mpr (by norm_num)
  have hrho2 : Real.sqrt (((-1e-5) : ℝ) ^ 2 + 0 ^ 2) ≠ 0 :=
    Real.sqrt_ne_zero'.mpr (by norm_num)
  have hrho3 : Real.sqrt ((0 : ℝ) ^ 2 + (1e-5 : ℝ) ^ 2) ≠ 0 :=
    Real.sqrt_ne_zero'.mpr (by norm_num)
  have hrho4 : Real.sqrt ((0 : ℝ) ^ 2 + ((-1e-5) : ℝ) ^ 2) ≠ 0 :=
    Real.sqrt_ne_zero'.mpr (by norm_num)
  have hRneg : ((-0.02 : ℝ)) ≤ 0 := by norm_num
  simp only [coilFieldWithGrad, loopMag]
  rw [show (0 : ℝ) * 1e-2 = 0 by norm_num,
    show ((-2) : ℝ) * 1e-2 = -0.02 by norm_num,
    show max (1e-5 : ℝ) (-0.02 * 1e-4) = 1e-5 from max_eq_left (by norm_num),
    show (0 : ℝ) + 1e-5 = 1e-5 by norm_num,
    show (0 : ℝ) - 1e-5 = -1e-5 by norm_num,
    loopFieldMeters_onAxis, loopFieldMeters_onAxis, loopFieldMeters_onAxis,
    loopFieldMeters_K0 0 0 1e-5 0 (-0.02) 1 1 hrho1 (kSqRaw_nonpos_of_R_nonpos hRneg),
    loopFieldMeters_K0 0 0 (-1e-5) 0 (-0.02) 1 1 hrho2 (kSqRaw_nonpos_of_R_nonpos hRneg),
    loopFieldMeters_K0 0 0 0 1e-5 (-0.02) 1 1 hrho3 (kSqRaw_nonpos_of_R_nonpos hRneg),
    loopFieldMeters_K0 0 0 0 (-1e-5) (-0.02) 1 1 hrho4 (kSqRaw_nonpos_of_R_nonpos hRneg)]
  simp only [map_ok, ok_bind, pure_eq_ok]
  rfl

/-- Witness for the gradient claim at the probe input. -/
theorem grad_central_difference_witness :
    coilFieldWithGrad 0 0 0 0 (-2) 1 1 = Except.ok gradProbe ∧
    (centralDiffGrad 0 0 0 0 (-2) 1 1 = Except.ok gradProbe.grad ∧
     coilFieldWithGradCounted 0 0 0 0 (-2) 1 1 = Except.ok (gradProbe, 7)) :=
  ⟨gradProbe_eval,
    grad_central_difference 0 0 0 0 (-2) 1 1 gradProbe gradProbe_eval⟩

/-- Closed-form evaluation of `helmholtzField` at the probe input
`x = 1 cm`, `y = z = 0`, `R = 2 cm`, `V = Omega = N = 1`: both loops
take the on-axis branch. -/
lemma helmProbe_eval :
    helmholtzField 0 1 0 0 2 1 1 1 = Except.ok helmProbe := by
  rw [helmholtz_eq_bind,
    show (1 : ℝ) * 1e-2 = 0.01 by norm_num,
    show (0 : ℝ) * 1e-2 = 0 by norm_num,
    show (2 : ℝ) * 1e-2 = 0.02 by norm_num,
    show (1 : ℝ) / 1 = 1 by norm_num,
    helmLoopField_onAxis, helmLoopField_onAxis,
    show (0.01 : ℝ) - -(0.02 / 2) = 0.02 by norm_num,
    show (0.01 : ℝ) - 0.02 / 2 = 0 by norm_num]
  simp only [map_ok, Except.bind, helmProbe, addV]
  norm_num

/-- Witness for the mirror-symmetry claim at the probe input. -/
theorem helmholtz_mirror_symmetry_witness :
    helmholtzField 0 1 0 0 2 1 1 1 = Except.ok helmProbe ∧
    ∃ w, helmholtzField 0 (-1) 0 0 2 1 1 1 = Except.ok w ∧ w.1 = helmProbe.1 :=
  ⟨helmProbe_eval,
    helmholtz_mirror_symmetry 0 1 0 0 2 1 1 1 helmProbe helmProbe_eval⟩

/-! ### Input validation -/

lemma runSingle_missing {fuel : ℕ} {x y z R I Om : Option ℝ} {N : Option ℤ}
    (h : x = none ∨ y = none ∨ z = none ∨ R = none ∨ I = none ∨ Om = none ∨ N = none) :
    runSingleCoil fuel x y z R I Om N = Except.error ValidationError.missingInput := by
  rcases x with _ | xv <;> rcases y with _ | yv <;> rcases z with _ | zv <;>
    rcases R with _ | Rv <;> rcases I with _ | Iv <;> rcases Om with _ | Omv <;>
    rcases N with _ | Nv <;> simp_all [runSingleCoil]

lemma runHelm_missing {fuel : ℕ} {x y z R V Om : Option ℝ} {N : Option ℤ}
    (h : x = none ∨ y = none ∨ z = none ∨ R = none ∨ V = none ∨ Om = none ∨ N = none) :
    runHelmholtz fuel x y z R V Om N = Except.error ValidationError.missingInput := by
  rcases x with _ | xv <;> rcases y with _ | yv <;> rcases z with _ | zv <;>
    rcases R with _ | Rv <;> rcases V with _ | Vv <;> rcases Om with _ | Omv <;>
    rcases N with _ | Nv <;> simp_all [runHelmholtz]

lemma runSingle_badR {fuel : ℕ} {xv yv zv Rv Iv Omv : ℝ} {Nv : ℤ} (hR : Rv ≤ 0) :
    runSingleCoil fuel (some xv) (some yv) (some zv) (some Rv) (some Iv) (some Omv)
      (some Nv) = Except.error ValidationError.nonPositiveR := by
  simp only [runSingleCoil]
  rw [if_pos hR]

lemma runHelm_badR {fuel : ℕ} {xv yv zv Rv Vv Omv : ℝ} {Nv : ℤ} (hR : Rv ≤ 0) :
    runHelmholtz fuel (some xv) (some yv) (some zv) (some Rv) (some Vv) (some Omv)
      (some Nv) = Except.error ValidationError.nonPositiveR := by
  simp only [runHelmholtz]
  rw [if_pos hR]

lemma runSingle_badOm {fuel : ℕ} {xv yv zv Rv Iv Omv : ℝ} {Nv : ℤ}
    (hR : 0 < Rv) (hOm : Omv ≤ 0) :
    runSingleCoil fuel (some xv) (some yv) (some zv) (some Rv) (some Iv) (some Omv)
      (some Nv) = Except.error ValidationError.nonPositiveOmega := by
  simp only [runSingleCoil]
  rw [if_neg (not_le.mpr hR), if_pos hOm]

lemma runHelm_badOm {fuel : ℕ} {xv yv zv Rv Vv Omv : ℝ} {Nv : ℤ}
    (hR : 0 < Rv) (hOm : Omv ≤ 0) :
    runHelmholtz fuel (some xv) (some yv) (some zv) (some Rv) (some Vv) (some Omv)
      (some Nv) = Except.error ValidationError.nonPositiveOmega := by
  simp only [runHelmholtz]
  rw [if_neg (not_le.mpr hR), if_pos hOm]

lemma runSingle_badN {fuel : ℕ} {xv yv zv Rv Iv Omv : ℝ} {Nv : ℤ}
    (hR : 0 < Rv) (hOm : 0 < Omv) (hN : Nv ≤ 0) :
    runSingleCoil fuel (some xv) (some yv) (some zv) (some Rv) (some Iv) (some Omv)
      (some Nv) = Except.error ValidationError.nonPositiveN := by
  simp only [runSingleCoil]
  rw [if_neg (not_le.mpr hR), if_neg (not_le.mpr hOm), if_pos hN]

lemma runHelm_badN {fuel : ℕ} {xv yv zv Rv Vv Omv : ℝ} {Nv : ℤ}
    (hR : 0 < Rv) (hOm : 0 < Omv) (hN : Nv ≤ 0) :
    runHelmholtz fuel (some xv) (some yv) (some zv) (some Rv) (some Vv) (some Omv)
      (some Nv) = Except.error ValidationError.nonPositiveN := by
  simp only [runHelmholtz]
  rw [if_neg (not_le.mpr hR), if_neg (not_le.mpr hOm), if_pos hN]

/-- Claim C8: each of the bad-input classes `R = 0`, `R < 0`,
`Omega = 0`, `Omega < 0`, `N = 0`, `N = -1` and any NaN-parsed field is
rejected by both button handlers with a validation error, before either
field computation runs: the handler's result carries no field data at
all. -/
theorem validation_rejects_bad_inputs (fuel : ℕ) (x y z R IV Om : Option ℝ)
    (N : Option ℤ) (h : badInputs x y z R IV Om N) :
    (∃ e, runSingleCoil fuel x y z R IV Om N = Except.error e) ∧
    (∃ e, runHelmholtz fuel x y z R IV Om N = Except.error e) := by
  by_cases hm : x = none ∨ y = none ∨ z = none ∨ R = none ∨ IV = none ∨
      Om = none ∨ N = none
  · exact ⟨⟨_, runSingle_missing hm⟩, ⟨_, runHelm_missing hm⟩⟩
  · push_neg at hm
    obtain ⟨hx, hy, hz, hR, hI, hOm, hN⟩ := hm
    obtain ⟨xv, rfl⟩ := Option.ne_none_iff_exists'.mp hx
    obtain ⟨yv, rfl⟩ := Option.ne_none_iff_exists'.mp hy
    obtain ⟨zv, rfl⟩ := Option.ne_none_iff_exists'.mp hz
    obtain ⟨Rv, rfl⟩ := Option.ne_none_iff_exists'.mp hR
    obtain ⟨Iv, rfl⟩ := Option.ne_none_iff_exists'.mp hI
    obtain ⟨Omv, rfl⟩ := Option.ne_none_iff_exists'.mp hOm
    obtain ⟨Nv, rfl⟩ := Option.ne_none_iff_exists'.mp hN
    by_cases hRv : Rv ≤ 0
    · exact ⟨⟨_, runSingle_badR hRv⟩, ⟨_, runHelm_badR hRv⟩⟩
    · by_cases hOmv : Omv ≤ 0
      · exact ⟨⟨_, runSingle_badOm (not_le.mp hRv) hOmv⟩,
          ⟨_, runHelm_badOm (not_le.mp hRv) hOmv⟩⟩
      · by_cases hNv : Nv ≤ 0
        · exact ⟨⟨_, runSingle_badN (not_le.mp hRv) (not_le.mp hOmv) hNv⟩,
            ⟨_, runHelm_badN (not_le.mp hRv) (not_le.mp hOmv) hNv⟩⟩
        · exfalso
          rcases h with h | ⟨r, hr, hrneg⟩ | h | ⟨w, hw, hwneg⟩ | h | h |
            h | h | h | h | h | h | h <;> simp_all <;> linarith

/-- Witness for the validation claim with `R = 0`. -/
theorem validation_rejects_bad_inputs_witness :
    badInputs (some 1) (some 1) (some 1) (some 0) (some 1) (some 1) (some 1) ∧
    ((∃ e, runSingleCoil 0 (some 1) (some 1) (some 1) (some 0) (some 1) (some 1)
        (some 1) = Except.error e) ∧
     (∃ e, runHelmholtz 0 (some 1) (some 1) (some 1) (some 0) (some 1) (some 1)
        (some 1) = Except.error e)) :=
  ⟨Or.inl rfl,
    validation_rejects_bad_inputs 0 (some 1) (some 1) (some 1) (some 0) (some 1)
      (some 1) (some 1) (Or.inl rfl)⟩

end

end CoilModel
